import Mathlib

/-!
# neon: batch JPEG resizer (`ne.go`)

A shallow embedding of `ne.go` and the properties of its batch engine.

Modelling conventions.

* Go strings are Lean `String`s; `strings.HasSuffix` compares the trailing
  characters, which for the ASCII suffixes used here is the same test as on bytes.
* `strings.ToLower` is embedded on the ASCII letters `A`..`Z` (the branch
  `c += 'a' - 'A'` of the library); other characters are left as they are.
* The package-level flag variables (`width`, `height`, `prefix`, `force`,
  `silent`) are the fields of `Config`, passed explicitly.
* Everything the program does to the outside (standard output, the logger, file
  handles, the codec) is recorded as a list of `Event`s; `log.Fatal` ends the
  process, which is the `fatal` field of `Result`.
* What the outside answers (does `os.Open` succeed, does `jpeg.Decode` succeed, ...)
  is a `World`; the batch loop gets one `World` per loop iteration, so the answers
  may change from one file to the next.
* `logError` tests `!silent`, that is the flag variable itself (a `*bool`) and not the
  flag's value `*silent`. The value of the `-s` flag is therefore never read; what that
  test yields is left open (`World.notSilentVar`) and is not tied to `Config.silent`.
-/

namespace Neon

/-! ## Strings -/

/-- ASCII branch of `unicode.ToLower` as used by `strings.ToLower`. -/
def toLowerRune (c : Char) : Char :=
  if 65 ≤ c.toNat ∧ c.toNat ≤ 90 then Char.ofNat (c.toNat + 32) else c

/-- Model of `strings.ToLower`: every character mapped through `toLowerRune`. -/
def ToLower (s : String) : String := ⟨s.data.map toLowerRune⟩

/-- Model of `strings.HasSuffix`:
`len(s) >= len(suffix) && s[len(s)-len(suffix):] == suffix`. -/
def HasSuffix (s suffix : String) : Bool :=
  decide (s.length ≥ suffix.length) &&
    (s.data.drop (s.length - suffix.length) == suffix.data)

/-- The allow-list `var extensions = [...]string{".jpeg", ".jpg"}`. -/
def extensions : List String := [".jpeg", ".jpg"]

/-- Source function `acceptExtension`: the loop over `extensions` returning `true` at the
first suffix match and `false` after the loop. -/
def acceptExtension (infile : String) : Bool :=
  extensions.any (fun ext => HasSuffix (ToLower infile) ext)

/-! ## Configuration, events, results -/

/-- Go `error` values, by their message. -/
abbrev Error := String

/-- The flag variables of the program. `pfx` is the `-pre` flag (the variable `prefix`). -/
structure Config where
  width : Nat
  height : Nat
  pfx : String
  force : Bool
  silent : Bool
  deriving DecidableEq

/-- A decoded picture, by `Bounds().Max`. -/
structure Image where
  X : Nat
  Y : Nat
  deriving DecidableEq

/-- Observable actions of the program. -/
inductive Event where
  /-- Text written by `fmt.Printf` / `fmt.Println`. -/
  | stdout (s : String)
  /-- A call of `os.Open` on the source, with its outcome. -/
  | osOpen (path : String) (ok : Bool)
  /-- A call of `jpeg.Decode` on the opened source, with its outcome. -/
  | jpegDecode (path : String) (ok : Bool)
  /-- The call `file.Close()` on the source handle. -/
  | fileClose (path : String)
  /-- The call of `resize.Resize` with the target width and height. -/
  | resize (w h : Nat)
  /-- A call of `os.Create`, with its outcome. -/
  | osCreate (path : String) (ok : Bool)
  /-- The call of `jpeg.Encode` on the destination handle. -/
  | jpegEncode (path : String)
  /-- The deferred `out.Close()` on the destination handle. -/
  | outClose (path : String)
  /-- A line written by `log.Println`. -/
  | logPrintln (msg : String) (err : Error)
  /-- The line written by `log.Fatal`, after which the process exits. -/
  | logFatal (msg : String) (err : Error)
  deriving DecidableEq

/-- What a piece of the program did: its events, and whether it ended the process
through `log.Fatal`. -/
structure Result where
  trace : List Event
  fatal : Bool
  deriving DecidableEq

/-- The answers of the operating system and of the libraries during one call of `run`. -/
structure World where
  /-- Outcome of `os.Open path`: `none` is success. -/
  osOpen : String → Option Error
  /-- Outcome of `jpeg.Decode` on the file opened at `path`: the pair `(img, err)`. -/
  jpegDecode : String → Image × Option Error
  /-- The external `resize.Resize width height img resize.Lanczos3`. -/
  resize : Nat → Nat → Image → Image
  /-- Outcome of `os.Create path`: `none` is success. -/
  osCreate : String → Option Error
  /-- The text of `time.Since(start)`. -/
  elapsed : String
  /-- What the test `!silent` of `logError` yields. The operand is the flag variable
  (a `*bool`), not the flag's value, so this is independent of `Config.silent`. -/
  notSilentVar : Bool

/-! ## The program -/

/-- Source function `logFatal`: `log.Fatal` (print and exit) when `err != nil`. -/
def logFatal (msg : String) (err : Option Error) : Result :=
  match err with
  | some e => ⟨[Event.logFatal msg e], true⟩
  | none => ⟨[], false⟩

/-- Source function `logError`: returns whether `err != nil`, and calls `log.Println`
under the test `!silent`. That test is on the flag variable, not on `*silent` (compare
`!*force` in `run`), so its outcome `notSilent` comes from the `World` and the flag's
value in `Config.silent` is not consulted. -/
def logError (notSilent : Bool) (msg : String) (err : Option Error) : Bool × List Event :=
  match err with
  | some e => (true, if notSilent then [Event.logPrintln msg e] else [])
  | none => (false, [])

/-- The destination expression of `run`: `*prefix + "_" + infile`. -/
def destPath (pfx infile : String) : String :=
  pfx ++ "_" ++ infile

/-- Source function `setPrefix`. `fmt.Sprint` of a `uint` is its decimal form. -/
def setPrefix (cfg : Config) : Config :=
  if cfg.pfx = "" then
    if cfg.width = 0 then
      { cfg with pfx := Nat.repr cfg.height }
    else
      { cfg with pfx := Nat.repr cfg.width }
  else cfg

/-- Source function `run`. -/
def run (cfg : Config) (w : World) (infile : String) : Result :=
  if !cfg.force && !acceptExtension infile then
    ⟨[], false⟩
  else
    let t0 := [Event.stdout ("Resizing " ++ infile ++ " ")]
    let err := w.osOpen infile
    let f := logFatal "Error opening file." err
    let t1 := t0 ++ [Event.osOpen infile err.isNone] ++ f.trace
    if f.fatal then ⟨t1, true⟩
    else
      let d := w.jpegDecode infile
      let l := logError w.notSilentVar "Error decoding file." d.2
      let t2 := t1 ++ [Event.jpegDecode infile d.2.isNone] ++ l.2
      if l.1 then ⟨t2, false⟩
      else
        let img := d.1
        let t3 := t2 ++ [Event.stdout (toString img.X ++ "x" ++ toString img.Y ++ " -> "),
          Event.fileClose infile, Event.resize cfg.width cfg.height]
        let m := w.resize cfg.width cfg.height img
        let t4 := t3 ++ [Event.stdout (toString m.X ++ "x" ++ toString m.Y ++ " in ")]
        let out := destPath cfg.pfx infile
        let err := w.osCreate out
        let f := logFatal "Creating output file failed." err
        let t5 := t4 ++ [Event.osCreate out err.isNone] ++ f.trace
        if f.fatal then ⟨t5, true⟩
        else
          ⟨t5 ++ [Event.jpegEncode out, Event.stdout (w.elapsed ++ "\n"), Event.outClose out],
            false⟩

/-- The loop `for _, file := range *files { run(file) }` of `main`; iteration `i` runs
against the world `env i`, and a `log.Fatal` inside `run` ends the loop. -/
def mainLoop (cfg : Config) (env : Nat → World) : Nat → List String → Result
  | _, [] => ⟨[], false⟩
  | i, file :: rest =>
    let r := run cfg (env i) file
    if r.fatal then r
    else
      let r2 := mainLoop cfg env (i + 1) rest
      ⟨r.trace ++ r2.trace, r2.fatal⟩

/-! ## File discovery -/

/-- The part of `os.FileMode` that `isDir` looks at. -/
structure Mode where
  isDir : Bool
  isRegular : Bool
  deriving DecidableEq

/-- Non-nil values a `filepath.WalkFunc` can return. -/
inductive WalkErr where
  | skipDir
  | skipAll
  | other (e : Error)
  deriving DecidableEq

mutual
/-- What `filepath.Walk` meets at a path. -/
inductive Tree where
  /-- An entry on which `os.Lstat` fails. -/
  | noStat (e : Error)
  /-- An entry that is not a directory. -/
  | file
  /-- A directory, with the outcome of reading its names (`readErr`) and its entries in
  the order `readDirNames` gives them. -/
  | dir (readErr : Option Error) (children : Forest)
/-- The named entries of a directory. -/
inductive Forest where
  | nil
  | cons (name : String) (t : Tree) (rest : Forest)
end

/-- Whether an entry is a plain file is decided by its constructor. -/
instance (t : Tree) : Decidable (t ≠ Tree.file) :=
  match t with
  | .file => isFalse (fun h => h rfl)
  | .noStat _ => isTrue (fun h => by cases h)
  | .dir _ _ => isTrue (fun h => by cases h)

/-- The file system as file discovery sees it. -/
structure FS where
  /-- Outcome of `os.Stat`. -/
  stat : String → Except Error Mode
  /-- What `filepath.Walk` finds when started at a root. -/
  walkTree : String → Tree
  /-- The library function `filepath.Join` on a directory and an entry name. -/
  join : String → String → String

/-- A `filepath.WalkFunc` acting on a state `σ`: it gets the path, whether the
`FileInfo` is present and a directory (`none` for a nil `FileInfo`), and the error of the
visit. -/
abbrev WalkFunc (σ : Type) := σ → String → Option Bool → Option Error → σ × Option WalkErr

mutual
/-- Library function `filepath.walk`, together with the `Lstat` its callers do first:
an entry whose `Lstat` fails is reported to `fn`; a non-directory is reported to `fn`;
a directory is reported to `fn` with the error of reading its names, and its entries are
walked when both that error and the answer of `fn` are nil. -/
def walk {σ : Type} (join : String → String → String) (fn : WalkFunc σ) (s : σ)
    (path : String) : Tree → σ × Option WalkErr
  | .noStat e => fn s path none (some e)
  | .file => fn s path (some false) none
  | .dir readErr children =>
    let r := fn s path (some true) readErr
    if readErr.isSome || r.2.isSome then r
    else walkNames join fn r.1 path children
/-- The loop `for _, name := range names` of `filepath.walk`. `SkipDir` coming from a
directory, or from `fn` on a failed `Lstat`, is swallowed; any other non-nil answer
ends the walk. -/
def walkNames {σ : Type} (join : String → String → String) (fn : WalkFunc σ) (s : σ)
    (path : String) : Forest → σ × Option WalkErr
  | .nil => (s, none)
  | .cons name t rest =>
    let r := walk join fn s (join path name) t
    match r.2 with
    | none => walkNames join fn r.1 path rest
    | some e =>
      if e = WalkErr.skipDir ∧ t ≠ Tree.file then walkNames join fn r.1 path rest
      else (r.1, some e)
end

/-- Library function `filepath.Walk`: `SkipDir` and `SkipAll` at the top become nil. -/
def Walk {σ : Type} (fs : FS) (root : String) (fn : WalkFunc σ) (s : σ) :
    σ × Option Error :=
  let r := walk fs.join fn s root (fs.walkTree root)
  match r.2 with
  | some (WalkErr.other e) => (r.1, some e)
  | _ => (r.1, none)

/-- Source function `isDir`: the answer, the error, and what it printed. -/
def isDir (fs : FS) (name : String) : (Bool × Option Error) × List Event :=
  match fs.stat name with
  | .error err => ((false, some err), [Event.stdout (err ++ "\n")])
  | .ok mode =>
    if mode.isDir then ((true, none), [])
    else if mode.isRegular then ((false, none), [])
    else ((false, none), [])

/-- The function literal passed to `filepath.Walk` in `listFiles`:
`files = append(files, path); return nil`. -/
def collect : WalkFunc (List String) :=
  fun files path _ _ => (files ++ [path], none)

/-- Source function `listFiles`: the list or the error, and what it printed. -/
def listFiles (fs : FS) (root : String) : Except Error (List String) × List Event :=
  let d := isDir fs root
  match d.1.2 with
  | some err => (.error err, d.2 ++ [Event.stdout (err ++ "\n")])
  | none =>
    if !d.1.1 then (.ok ([] ++ [root]), d.2)
    else
      let r := Walk fs root collect []
      match r.2 with
      | some err => (.error err, d.2)
      | none => (.ok r.1, d.2)

/-- Source function `main` after `flag.Parse()`: `cfg` holds the parsed flags and
`infile` is `flag.Args()[0]`. -/
def main (cfg : Config) (fs : FS) (env : Nat → World) (infile : String) : Result :=
  let cfg := setPrefix cfg
  let l := listFiles fs infile
  match l.1 with
  | .error err =>
    let f := logFatal "Listing files failed." (some err)
    ⟨l.2 ++ f.trace, f.fatal⟩
  | .ok files =>
    let r := mainLoop cfg env 0 files
    ⟨l.2 ++ r.trace, r.fatal⟩

/-! ## Observations on traces -/

/-- Destination paths that `os.Create` produced, in order. -/
def created : List Event → List String
  | [] => []
  | Event.osCreate p true :: t => p :: created t
  | _ :: t => created t

/-- Paths on which `os.Open` was called, in order. -/
def opened : List Event → List String
  | [] => []
  | Event.osOpen p _ :: t => p :: opened t
  | _ :: t => opened t

/-- Lines written by `log.Println`. -/
def logged : List Event → List Event
  | [] => []
  | Event.logPrintln m e :: t => Event.logPrintln m e :: logged t
  | _ :: t => logged t

/-- A file handle held by the process. -/
inductive Handle where
  | src (path : String)
  | out (path : String)
  deriving DecidableEq

/-- Effect of one event on the handles that are open. -/
def stepHandles (hs : List Handle) : Event → List Handle
  | Event.osOpen p true => hs ++ [Handle.src p]
  | Event.fileClose p => hs.erase (Handle.src p)
  | Event.osCreate p true => hs ++ [Handle.out p]
  | Event.outClose p => hs.erase (Handle.out p)
  | _ => hs

/-- Handles still open after a trace. -/
def openHandles (t : List Event) : List Handle :=
  t.foldl stepHandles []

/-- Whether `run` goes past its extension filter. -/
def accepted (cfg : Config) (infile : String) : Bool :=
  cfg.force || acceptExtension infile

/-! ## Notions of the specification -/

/-- Whether `jpeg.Decode` succeeds on `p` in the world `w`. -/
def decodes (w : World) (p : String) : Bool :=
  (w.jpegDecode p).2.isNone

/-- The failure that ends the batch at a path: `os.Open` fails, or the file opens and
decodes and `os.Create` of its destination fails. -/
def openOrCreateFails (cfg : Config) (w : World) (p : String) : Prop :=
  w.osOpen p ≠ none ∨
    (w.osOpen p = none ∧ (w.jpegDecode p).2 = none ∧ w.osCreate (destPath cfg.pfx p) ≠ none)

/-- The final element of a path: what follows its last `/`. -/
def finalElement (p : String) : String :=
  ⟨(p.data.reverse.takeWhile (fun c => c != '/')).reverse⟩

/-- The directory part of a path: everything up to and including its last `/`. -/
def dirPart (p : String) : String :=
  ⟨(p.data.reverse.dropWhile (fun c => c != '/')).reverse⟩

/-- The extension of a path in the words of the specification: the substring that starts
at the last `.` of the final path element, empty when that element has no `.`. -/
def extension (p : String) : String :=
  if '.' ∈ (finalElement p).data then
    ⟨'.' :: ((finalElement p).data.reverse.takeWhile (fun c => c != '.')).reverse⟩
  else ""

/-- Case-insensitive comparison of two strings. -/
def equalFold (a b : String) : Bool :=
  ToLower a == ToLower b

/-- The filter in the words of the specification: the extension, compared without regard
to case, is one of the two spellings. -/
def extensionAllowed (p : String) : Bool :=
  equalFold (extension p) ".jpg" || equalFold (extension p) ".jpeg"

/-- Two strings that differ at most in the case of their letters. -/
def sameUpToCase (p q : String) : Prop :=
  List.Forall₂ (fun a b => toLowerRune a = toLowerRune b) p.data q.data

/-! ## Concrete inputs -/

/-- Flags `-w 150 -pre out`. -/
def sampleConfig : Config := ⟨150, 0, "out", false, false⟩

/-- Flags `-w 150 -pre out -f`. -/
def forceConfig : Config := ⟨150, 0, "out", true, false⟩

/-- Flags `-w 150 -pre out -s`. -/
def quietConfig : Config := ⟨150, 0, "out", false, true⟩

/-- A world in which every file opens, every destination can be created, every picture
is 300x200, and `/img/c.jpeg` alone does not decode. -/
def sampleWorld : World where
  osOpen := fun _ => none
  jpegDecode := fun p =>
    if p = "/img/c.jpeg" then (⟨0, 0⟩, some "invalid JPEG format") else (⟨300, 200⟩, none)
  resize := fun w h img =>
    if h = 0 then ⟨w, img.Y * w / img.X⟩ else if w = 0 then ⟨img.X * h / img.Y, h⟩ else ⟨w, h⟩
  osCreate := fun _ => none
  elapsed := "1ms"
  notSilentVar := true

/-- The world `sampleWorld` with the test `!silent` of `logError` yielding false. -/
def mutedWorld : World :=
  { sampleWorld with notSilentVar := false }

/-- A world in which `os.Create` is refused. -/
def readOnlyWorld : World :=
  { sampleWorld with osCreate := fun _ => some "permission denied" }

/-- The first file is processed in `sampleWorld`, the later ones in `readOnlyWorld`. -/
def turningEnv : Nat → World :=
  fun i => if i = 0 then sampleWorld else readOnlyWorld

/-- A directory `/img` holding a picture and a subdirectory whose names cannot be read. -/
def lockedFS : FS where
  stat := fun p => if p = "/img" then .ok ⟨true, false⟩ else .error "no such file"
  walkTree := fun _ =>
    Tree.dir none
      (Forest.cons "a.jpg" Tree.file
        (Forest.cons "locked" (Tree.dir (some "permission denied") Forest.nil)
          (Forest.cons "z.jpg" Tree.file Forest.nil)))
  join := fun d n => d ++ "/" ++ n

/-! ## Lemmas on strings and traces -/

theorem hasSuffix_iff (s x : String) : HasSuffix s x = true ↔ ∃ t : String, s = t ++ x := by
  unfold HasSuffix
  simp only [Bool.and_eq_true, decide_eq_true_eq, beq_iff_eq, String.length]
  constructor
  · rintro ⟨_, hd⟩
    refine ⟨⟨s.data.take (s.data.length - x.data.length)⟩, ?_⟩
    apply String.ext
    rw [String.data_append]
    show s.data = List.take (s.data.length - x.data.length) s.data ++ x.data
    have h := (List.take_append_drop (s.data.length - x.data.length) s.data).symm
    rw [hd] at h
    exact h
  · rintro ⟨t, rfl⟩
    rw [String.data_append]
    constructor
    · simp
    · simp

theorem acceptExtension_iff (p : String) :
    acceptExtension p = true ↔
      ((∃ t : String, ToLower p = t ++ ".jpeg") ∨ (∃ t : String, ToLower p = t ++ ".jpg")) := by
  unfold acceptExtension extensions
  simp only [List.any_cons, List.any_nil, Bool.or_false, Bool.or_eq_true, hasSuffix_iff]

theorem logged_append (a b : List Event) : logged (a ++ b) = logged a ++ logged b := by
  induction a with
  | nil => rfl
  | cons e t ih => cases e <;> simp [logged, ih]

theorem created_append (a b : List Event) : created (a ++ b) = created a ++ created b := by
  induction a with
  | nil => rfl
  | cons e t ih =>
    cases e <;> simp [created, ih]
    rename_i p ok
    cases ok <;> simp [created, ih]

theorem opened_append (a b : List Event) : opened (a ++ b) = opened a ++ opened b := by
  induction a with
  | nil => rfl
  | cons e t ih => cases e <;> simp [opened, ih]

/-! ## The five ways through `run` -/

theorem accepted_eq_false {cfg : Config} {p : String} (h : accepted cfg p = false) :
    (!cfg.force && !acceptExtension p) = true := by
  unfold accepted at h
  cases hf : cfg.force <;> cases ha : acceptExtension p <;> simp_all

theorem accepted_eq_true {cfg : Config} {p : String} (h : accepted cfg p = true) :
    (!cfg.force && !acceptExtension p) = false := by
  unfold accepted at h
  cases hf : cfg.force <;> cases ha : acceptExtension p <;> simp_all

theorem run_rejected (cfg : Config) (w : World) (p : String) (h : accepted cfg p = false) :
    run cfg w p = ⟨[], false⟩ := by
  simp [run, accepted_eq_false h]

theorem run_openFail (cfg : Config) (w : World) (p : String) (e : Error)
    (h : accepted cfg p = true) (ho : w.osOpen p = some e) :
    run cfg w p = ⟨[Event.stdout ("Resizing " ++ p ++ " "), Event.osOpen p false,
      Event.logFatal "Error opening file." e], true⟩ := by
  simp [run, accepted_eq_true h, ho, logFatal]

theorem run_decodeFail (cfg : Config) (w : World) (p : String) (e : Error)
    (h : accepted cfg p = true) (ho : w.osOpen p = none) (hd : (w.jpegDecode p).2 = some e) :
    run cfg w p = ⟨[Event.stdout ("Resizing " ++ p ++ " "), Event.osOpen p true,
      Event.jpegDecode p false] ++
        (if w.notSilentVar then [Event.logPrintln "Error decoding file." e] else []),
      false⟩ := by
  cases hs : w.notSilentVar <;>
    simp [run, accepted_eq_true h, ho, hd, logFatal, logError, hs]

theorem run_createFail (cfg : Config) (w : World) (p : String) (e : Error)
    (h : accepted cfg p = true) (ho : w.osOpen p = none) (hd : (w.jpegDecode p).2 = none)
    (hc : w.osCreate (destPath cfg.pfx p) = some e) :
    run cfg w p = ⟨[Event.stdout ("Resizing " ++ p ++ " "), Event.osOpen p true,
      Event.jpegDecode p true,
      Event.stdout (toString (w.jpegDecode p).1.X ++ "x" ++ toString (w.jpegDecode p).1.Y
        ++ " -> "),
      Event.fileClose p, Event.resize cfg.width cfg.height,
      Event.stdout (toString (w.resize cfg.width cfg.height (w.jpegDecode p).1).X ++ "x" ++
        toString (w.resize cfg.width cfg.height (w.jpegDecode p).1).Y ++ " in "),
      Event.osCreate (destPath cfg.pfx p) false,
      Event.logFatal "Creating output file failed." e], true⟩ := by
  simp [run, accepted_eq_true h, ho, hd, hc, logFatal, logError]

theorem run_success (cfg : Config) (w : World) (p : String)
    (h : accepted cfg p = true) (ho : w.osOpen p = none) (hd : (w.jpegDecode p).2 = none)
    (hc : w.osCreate (destPath cfg.pfx p) = none) :
    run cfg w p = ⟨[Event.stdout ("Resizing " ++ p ++ " "), Event.osOpen p true,
      Event.jpegDecode p true,
      Event.stdout (toString (w.jpegDecode p).1.X ++ "x" ++ toString (w.jpegDecode p).1.Y
        ++ " -> "),
      Event.fileClose p, Event.resize cfg.width cfg.height,
      Event.stdout (toString (w.resize cfg.width cfg.height (w.jpegDecode p).1).X ++ "x" ++
        toString (w.resize cfg.width cfg.height (w.jpegDecode p).1).Y ++ " in "),
      Event.osCreate (destPath cfg.pfx p) true,
      Event.jpegEncode (destPath cfg.pfx p), Event.stdout (w.elapsed ++ "\n"),
      Event.outClose (destPath cfg.pfx p)], false⟩ := by
  simp [run, accepted_eq_true h, ho, hd, hc, logFatal, logError]

/-- Every call of `run` takes one of the five ways. -/
theorem run_cases (cfg : Config) (w : World) (p : String) :
    accepted cfg p = false ∨
    (accepted cfg p = true ∧ ∃ e, w.osOpen p = some e) ∨
    (accepted cfg p = true ∧ w.osOpen p = none ∧ ∃ e, (w.jpegDecode p).2 = some e) ∨
    (accepted cfg p = true ∧ w.osOpen p = none ∧ (w.jpegDecode p).2 = none ∧
      ∃ e, w.osCreate (destPath cfg.pfx p) = some e) ∨
    (accepted cfg p = true ∧ w.osOpen p = none ∧ (w.jpegDecode p).2 = none ∧
      w.osCreate (destPath cfg.pfx p) = none) := by
  cases ha : accepted cfg p
  · exact Or.inl rfl
  · cases ho : w.osOpen p with
    | some e => exact Or.inr (Or.inl ⟨rfl, e, rfl⟩)
    | none =>
      cases hd : (w.jpegDecode p).2 with
      | some e => exact Or.inr (Or.inr (Or.inl ⟨rfl, rfl, e, rfl⟩))
      | none =>
        cases hc : w.osCreate (destPath cfg.pfx p) with
        | some e => exact Or.inr (Or.inr (Or.inr (Or.inl ⟨rfl, rfl, rfl, e, rfl⟩)))
        | none => exact Or.inr (Or.inr (Or.inr (Or.inr ⟨rfl, rfl, rfl, rfl⟩)))

/-! ## The extension filter in `run` (C1) -/

theorem run_opens_iff (cfg : Config) (w : World) (p : String) :
    (∃ ok, Event.osOpen p ok ∈ (run cfg w p).trace) ↔ accepted cfg p = true := by
  rcases run_cases cfg w p with h | ⟨h, e, ho⟩ | ⟨h, ho, e, hd⟩ | ⟨h, ho, hd, e, hc⟩ |
    ⟨h, ho, hd, hc⟩
  · simp [run_rejected cfg w p h, h]
  · simp [run_openFail cfg w p e h ho, h]
  · simp [run_decodeFail cfg w p e h ho hd, h]
  · simp [run_createFail cfg w p e h ho hd hc, h]
  · simp [run_success cfg w p h ho hd hc, h]

/-- C1: with `force` off, `run` goes on to call `os.Open` on `p` exactly when the
lowercased `p` ends in `.jpeg` or `.jpg`, and otherwise it returns with no event at all
and without a fatal error; with `force` on, `run` calls `os.Open` on every `p`. -/
theorem run_filter_contract (cfg : Config) (w : World) (p : String) :
    (cfg.force = false →
      (((∃ ok, Event.osOpen p ok ∈ (run cfg w p).trace) ↔
          ((∃ t : String, ToLower p = t ++ ".jpeg") ∨ (∃ t : String, ToLower p = t ++ ".jpg"))) ∧
        (¬ ((∃ t : String, ToLower p = t ++ ".jpeg") ∨ (∃ t : String, ToLower p = t ++ ".jpg")) →
          run cfg w p = ⟨[], false⟩))) ∧
    (cfg.force = true → ∃ ok, Event.osOpen p ok ∈ (run cfg w p).trace) := by
  refine ⟨fun hf => ⟨?_, fun hn => ?_⟩, fun hf => ?_⟩
  · rw [run_opens_iff, ← acceptExtension_iff]
    simp [accepted, hf]
  · apply run_rejected
    rw [← acceptExtension_iff] at hn
    simp [accepted, hf, hn]
  · rw [run_opens_iff]
    simp [accepted, hf]

theorem run_filter_contract_witness :
    (∃ ok, Event.osOpen "/img/a.JPG" ok ∈ (run sampleConfig sampleWorld "/img/a.JPG").trace) ∧
    run sampleConfig sampleWorld "/img/b.png" = ⟨[], false⟩ ∧
    (∃ ok, Event.osOpen "/img/b.png" ok ∈ (run forceConfig sampleWorld "/img/b.png").trace) :=
  ⟨((run_filter_contract sampleConfig sampleWorld "/img/a.JPG").1 rfl).1.2
      (Or.inr ⟨"/img/a", by decide⟩),
    ((run_filter_contract sampleConfig sampleWorld "/img/b.png").1 rfl).2
      (by rw [← acceptExtension_iff]; decide),
    (run_filter_contract forceConfig sampleWorld "/img/b.png").2 rfl⟩

/-! ## Destination naming (C2) and the default prefix (C6) -/

theorem created_run_subset (cfg : Config) (w : World) (S d : String) (ok : Bool)
    (h : Event.osCreate d ok ∈ (run cfg w S).trace) : d = destPath cfg.pfx S := by
  rcases run_cases cfg w S with ha | ⟨ha, e, ho⟩ | ⟨ha, ho, e, hd⟩ | ⟨ha, ho, hd, e, hc⟩ |
    ⟨ha, ho, hd, hc⟩
  · simp [run_rejected cfg w S ha] at h
  · simp [run_openFail cfg w S e ha ho] at h
  · rw [run_decodeFail cfg w S e ha ho hd] at h
    cases hs : w.notSilentVar <;> simp [hs] at h
  · simp [run_createFail cfg w S e ha ho hd hc] at h
    exact h.1
  · simp [run_success cfg w S ha ho hd hc] at h
    exact h.1

/-- C2: every `os.Create` of `run` is on the path `P ++ "_" ++ S`; that call is made
whenever the file is accepted, opened and decoded; `S` is a suffix and `P ++ "_"` a prefix
of that path; and two runs on the same `(S, P)`, in whatever worlds, create the same
path. -/
theorem run_destination (cfg : Config) (w : World) (S : String) :
    (∀ d ok, Event.osCreate d ok ∈ (run cfg w S).trace → d = cfg.pfx ++ "_" ++ S) ∧
    (accepted cfg S = true → w.osOpen S = none → (w.jpegDecode S).2 = none →
      ∃ ok, Event.osCreate (cfg.pfx ++ "_" ++ S) ok ∈ (run cfg w S).trace) ∧
    (∃ t : String, cfg.pfx ++ "_" ++ S = t ++ S) ∧
    (∃ t : String, cfg.pfx ++ "_" ++ S = (cfg.pfx ++ "_") ++ t) ∧
    (∀ (cfg2 : Config) (w2 : World) d d2 ok ok2, cfg2.pfx = cfg.pfx →
      Event.osCreate d ok ∈ (run cfg w S).trace →
      Event.osCreate d2 ok2 ∈ (run cfg2 w2 S).trace → d = d2) := by
  refine ⟨fun d ok h => created_run_subset cfg w S d ok h, fun ha ho hd => ?_,
    ⟨cfg.pfx ++ "_", rfl⟩, ⟨S, rfl⟩, fun cfg2 w2 d d2 ok ok2 hp h h2 => ?_⟩
  · cases hc : w.osCreate (destPath cfg.pfx S) with
    | some e =>
      refine ⟨false, ?_⟩
      simp [run_createFail cfg w S e ha ho hd hc, destPath]
    | none =>
      refine ⟨true, ?_⟩
      simp [run_success cfg w S ha ho hd hc, destPath]
  · rw [created_run_subset cfg w S d ok h, created_run_subset cfg2 w2 S d2 ok2 h2, hp]

theorem run_destination_witness :
    ∃ ok, Event.osCreate ("out" ++ "_" ++ "/img/a.jpg") ok ∈
      (run sampleConfig sampleWorld "/img/a.jpg").trace :=
  (run_destination sampleConfig sampleWorld "/img/a.jpg").2.1 (by decide) rfl (by decide)

/-- C6: a non-empty prefix is left as it is; an empty prefix with exactly one of
width and height nonzero becomes the decimal form of the nonzero one; width and height
(and the two boolean flags) are never changed. -/
theorem setPrefix_contract (cfg : Config) :
    (cfg.pfx ≠ "" → setPrefix cfg = cfg) ∧
    (cfg.pfx = "" → cfg.width ≠ 0 → cfg.height = 0 →
      (setPrefix cfg).pfx = Nat.repr cfg.width) ∧
    (cfg.pfx = "" → cfg.width = 0 → cfg.height ≠ 0 →
      (setPrefix cfg).pfx = Nat.repr cfg.height) ∧
    (setPrefix cfg).width = cfg.width ∧ (setPrefix cfg).height = cfg.height ∧
    (setPrefix cfg).force = cfg.force ∧ (setPrefix cfg).silent = cfg.silent := by
  unfold setPrefix
  refine ⟨fun h => by simp [h], fun h hw _ => by simp [h, hw], fun h hw _ => by simp [h, hw],
    ?_, ?_, ?_, ?_⟩ <;> split <;> (try split) <;> rfl

theorem setPrefix_contract_witness :
    setPrefix ⟨150, 0, "out", false, false⟩ = ⟨150, 0, "out", false, false⟩ ∧
    (setPrefix ⟨150, 0, "", false, false⟩).pfx = "150" ∧
    (setPrefix ⟨0, 99, "", false, false⟩).pfx = "99" :=
  ⟨(setPrefix_contract ⟨150, 0, "out", false, false⟩).1 (by decide),
    (setPrefix_contract ⟨150, 0, "", false, false⟩).2.1 rfl (by decide) rfl,
    (setPrefix_contract ⟨0, 99, "", false, false⟩).2.2.1 rfl rfl (by decide)⟩

/-! ## Logging of decode failures (C9) -/

theorem logError_fst (t : Bool) (msg : String) (err : Option Error) :
    (logError t msg err).1 = true ↔ err ≠ none := by
  cases err <;> simp [logError]

/-- The value of the `-s` flag reaches no decision of `run`. -/
theorem run_silent_irrelevant (cfg : Config) (b : Bool) (w : World) (p : String) :
    run { cfg with silent := b } w p = run cfg w p := by
  simp [run]

/-- C9 at a picture that opens and does not decode, with `-s` and without it: the test
of `logError` is on the flag variable and not on the flag's value, so the run with `-s`
and the run without it write the same lines. When that test yields true the decode
failure is logged although `-s` is set; when it yields false the failure is not logged
although `-s` is not set. The claim asks for a log line exactly when `-s` is not set. -/
theorem logError_ignores_silent_flag :
    quietConfig.silent = true ∧ sampleConfig.silent = false ∧
    logged (run quietConfig sampleWorld "/img/c.jpeg").trace =
      [Event.logPrintln "Error decoding file." "invalid JPEG format"] ∧
    logged (run sampleConfig mutedWorld "/img/c.jpeg").trace = [] ∧
    (run sampleConfig mutedWorld "/img/c.jpeg").trace =
      [Event.stdout "Resizing /img/c.jpeg ", Event.osOpen "/img/c.jpeg" true,
        Event.jpegDecode "/img/c.jpeg" false] ∧
    run quietConfig sampleWorld "/img/c.jpeg" = run sampleConfig sampleWorld "/img/c.jpeg" ∧
    run quietConfig mutedWorld "/img/c.jpeg" = run sampleConfig mutedWorld "/img/c.jpeg" := by
  decide

/-! ## The batch loop: isolation of decode failures (C3) -/

theorem run_allOpenCreate (cfg : Config) (w : World) (p : String)
    (hopen : ∀ q, w.osOpen q = none) (hcreate : ∀ q, w.osCreate q = none) :
    (run cfg w p).fatal = false ∧
    created (run cfg w p).trace =
      if accepted cfg p && decodes w p then [destPath cfg.pfx p] else [] := by
  rcases run_cases cfg w p with h | ⟨h, e, ho⟩ | ⟨h, ho, e, hd⟩ | ⟨h, ho, hd, e, hc⟩ |
    ⟨h, ho, hd, hc⟩
  · simp [run_rejected cfg w p h, created, h]
  · rw [hopen p] at ho; cases ho
  · rw [run_decodeFail cfg w p e h ho hd]
    cases hs : w.notSilentVar <;> simp [created, decodes, hd, h]
  · rw [hcreate _] at hc; cases hc
  · simp [run_success cfg w p h ho hd hc, created, decodes, hd, h]

theorem mainLoop_allOpenCreate (cfg : Config) (env : Nat → World)
    (hopen : ∀ i p, (env i).osOpen p = none) (hcreate : ∀ i q, (env i).osCreate q = none)
    (files : List String) : ∀ k,
    (mainLoop cfg env k files).fatal = false ∧
    created (mainLoop cfg env k files).trace =
      ((files.enumFrom k).filter
        (fun ip => accepted cfg ip.2 && decodes (env ip.1) ip.2)).map
        (fun ip => destPath cfg.pfx ip.2) := by
  induction files with
  | nil => intro k; exact ⟨rfl, rfl⟩
  | cons f rest ih =>
    intro k
    obtain ⟨hf, hc⟩ := run_allOpenCreate cfg (env k) f (hopen k) (hcreate k)
    obtain ⟨ihf, ihc⟩ := ih (k + 1)
    unfold mainLoop
    simp only [hf, Bool.false_eq_true, if_false, created_append, hc, ihc, ihf,
      List.enumFrom_cons, List.filter_cons]
    refine ⟨trivial, ?_⟩
    cases hx : (accepted cfg f && decodes (env k) f) <;> simp

/-- C3: when every `os.Open` and every `os.Create` succeeds, the batch loop ends without
a fatal error and the destinations it creates are exactly `prefix ++ "_" ++ p` for the
accepted paths `p` whose decode succeeds (in list order, one per such position); a path
whose decode fails contributes nothing and takes nothing away from the others. -/
theorem mainLoop_failure_isolation (cfg : Config) (env : Nat → World) (files : List String)
    (hopen : ∀ i p, (env i).osOpen p = none) (hcreate : ∀ i q, (env i).osCreate q = none) :
    (mainLoop cfg env 0 files).fatal = false ∧
    created (mainLoop cfg env 0 files).trace =
      (files.enum.filter (fun ip => accepted cfg ip.2 && decodes (env ip.1) ip.2)).map
        (fun ip => cfg.pfx ++ "_" ++ ip.2) ∧
    (∀ d, d ∈ created (mainLoop cfg env 0 files).trace ↔
      ∃ i p, files[i]? = some p ∧ accepted cfg p = true ∧
        ((env i).jpegDecode p).2 = none ∧ d = cfg.pfx ++ "_" ++ p) := by
  obtain ⟨hf, hc⟩ := mainLoop_allOpenCreate cfg env hopen hcreate files 0
  refine ⟨hf, hc, fun d => ?_⟩
  rw [hc]
  simp only [List.mem_map, List.mem_filter, Bool.and_eq_true, Prod.exists,
    List.mk_mem_enumFrom_iff_le_and_getElem?_sub, decodes, Option.isNone_iff_eq_none, destPath]
  constructor
  · rintro ⟨i, p, ⟨⟨_, hi⟩, ha, hd⟩, rfl⟩
    exact ⟨i, p, by simpa using hi, ha, hd, rfl⟩
  · rintro ⟨i, p, hi, ha, hd, rfl⟩
    exact ⟨i, p, ⟨⟨Nat.zero_le _, by simpa using hi⟩, ha, hd⟩, rfl⟩

theorem mainLoop_failure_isolation_witness :
    (mainLoop sampleConfig (fun _ => sampleWorld) 0
      ["/img/a.jpg", "/img/c.jpeg", "/img/d.JPG"]).fatal = false ∧
    created (mainLoop sampleConfig (fun _ => sampleWorld) 0
      ["/img/a.jpg", "/img/c.jpeg", "/img/d.JPG"]).trace =
        ["out_/img/a.jpg", "out_/img/d.JPG"] :=
  ⟨(mainLoop_failure_isolation sampleConfig (fun _ => sampleWorld)
      ["/img/a.jpg", "/img/c.jpeg", "/img/d.JPG"] (fun _ _ => rfl) (fun _ _ => rfl)).1,
    ((mainLoop_failure_isolation sampleConfig (fun _ => sampleWorld)
      ["/img/a.jpg", "/img/c.jpeg", "/img/d.JPG"] (fun _ _ => rfl) (fun _ _ => rfl)).2.1).trans
      (by decide)⟩

/-! ## The batch loop: fatal failures (C4) -/

theorem mainLoop_append (cfg : Config) (env : Nat → World) (a b : List String) : ∀ k,
    mainLoop cfg env k (a ++ b) =
      if (mainLoop cfg env k a).fatal then mainLoop cfg env k a
      else ⟨(mainLoop cfg env k a).trace ++ (mainLoop cfg env (k + a.length) b).trace,
        (mainLoop cfg env (k + a.length) b).fatal⟩ := by
  induction a with
  | nil => intro k; simp [mainLoop]
  | cons f rest ih =>
    intro k
    simp only [List.cons_append, mainLoop, List.length_cons, List.append_eq]
    by_cases hf : (run cfg (env k) f).fatal = true
    · simp [hf]
    · have hk : k + (rest.length + 1) = k + 1 + rest.length := by omega
      rw [ih (k + 1), hk]
      by_cases hr : (mainLoop cfg env (k + 1) rest).fatal = true
      · simp [hf, hr]
      · simp [hf, hr]

theorem run_openOrCreateFails (cfg : Config) (w : World) (p : String)
    (ha : accepted cfg p = true) (hfail : openOrCreateFails cfg w p) :
    (run cfg w p).fatal = true ∧ created (run cfg w p).trace = [] ∧
      opened (run cfg w p).trace = [p] ∧
      ∃ m e, (run cfg w p).trace.getLast? = some (Event.logFatal m e) := by
  rcases hfail with ho | ⟨ho, hd, hc⟩
  · obtain ⟨e, he⟩ := Option.ne_none_iff_exists'.mp ho
    simp [run_openFail cfg w p e ha he, created, opened]
  · obtain ⟨e, he⟩ := Option.ne_none_iff_exists'.mp hc
    simp [run_createFail cfg w p e ha ho hd he, created, opened]

theorem mainLoop_congr (cfg : Config) (env env2 : Nat → World) (files : List String) :
    ∀ k, (∀ j, k ≤ j → j < k + files.length → env2 j = env j) →
      mainLoop cfg env2 k files = mainLoop cfg env k files := by
  induction files with
  | nil => intro k _; rfl
  | cons f rest ih =>
    intro k h
    have h1 : env2 k = env k := h k (Nat.le_refl k) (by simp)
    have h2 : mainLoop cfg env2 (k + 1) rest = mainLoop cfg env (k + 1) rest :=
      ih (k + 1) (fun j hj hlt => h j (by omega) (by simp only [List.length_cons]; omega))
    simp only [mainLoop, h1, h2]

theorem mainLoop_stop_at (cfg : Config) (env : Nat → World)
    (pre : List String) (p : String) (post : List String)
    (hpre : (mainLoop cfg env 0 pre).fatal = false)
    (hrun : (run cfg (env pre.length) p).fatal = true) :
    mainLoop cfg env 0 (pre ++ p :: post) =
      ⟨(mainLoop cfg env 0 pre).trace ++ (run cfg (env pre.length) p).trace, true⟩ := by
  rw [mainLoop_append]
  simp [hpre, mainLoop, hrun]

/-- C4: when the loop reaches position `i = pre.length` and opening the source or
creating the destination fails there for an accepted path `p`, the loop ends fatally at
`p`: its events are those of the positions before `i` followed by those of `p`, ending
with the `log.Fatal` line; whatever comes after `p` in the list has no effect (nothing
of it is opened, decoded or created); the destinations created are exactly those created
for the positions before `i`. -/
theorem mainLoop_fatal_short_circuit (cfg : Config) (env : Nat → World)
    (pre : List String) (p : String) (post : List String)
    (hpre : (mainLoop cfg env 0 pre).fatal = false)
    (ha : accepted cfg p = true)
    (hfail : openOrCreateFails cfg (env pre.length) p) :
    (mainLoop cfg env 0 (pre ++ p :: post)).fatal = true ∧
    (mainLoop cfg env 0 (pre ++ p :: post)).trace =
      (mainLoop cfg env 0 pre).trace ++ (run cfg (env pre.length) p).trace ∧
    (∃ m e, (mainLoop cfg env 0 (pre ++ p :: post)).trace.getLast? =
      some (Event.logFatal m e)) ∧
    (∀ (env2 : Nat → World) (post2 : List String), (∀ j, j ≤ pre.length → env2 j = env j) →
      mainLoop cfg env2 0 (pre ++ p :: post2) = mainLoop cfg env 0 (pre ++ p :: post)) ∧
    opened (mainLoop cfg env 0 (pre ++ p :: post)).trace =
      opened (mainLoop cfg env 0 pre).trace ++ [p] ∧
    created (mainLoop cfg env 0 (pre ++ p :: post)).trace =
      created (mainLoop cfg env 0 pre).trace := by
  obtain ⟨hf, hc, ho, hl⟩ := run_openOrCreateFails cfg (env pre.length) p ha hfail
  have hstop := mainLoop_stop_at cfg env pre p post hpre hf
  refine ⟨by rw [hstop], by rw [hstop], ?_, fun env2 post2 henv => ?_, ?_, ?_⟩
  · obtain ⟨m, e, hme⟩ := hl
    refine ⟨m, e, ?_⟩
    rw [hstop]
    show ((mainLoop cfg env 0 pre).trace ++ (run cfg (env pre.length) p).trace).getLast? = _
    rw [List.getLast?_append, hme]
    rfl
  · have hpre2 : mainLoop cfg env2 0 pre = mainLoop cfg env 0 pre :=
      mainLoop_congr cfg env env2 pre 0 (fun j _ hj => henv j (by omega))
    have hrun2 : run cfg (env2 pre.length) p = run cfg (env pre.length) p := by
      rw [henv pre.length (Nat.le_refl _)]
    rw [hstop, mainLoop_stop_at cfg env2 pre p post2 (by rw [hpre2]; exact hpre)
      (by rw [hrun2]; exact hf), hpre2, hrun2]
  · rw [hstop]
    show opened ((mainLoop cfg env 0 pre).trace ++ (run cfg (env pre.length) p).trace) = _
    rw [opened_append, ho]
  · rw [hstop]
    show created ((mainLoop cfg env 0 pre).trace ++ (run cfg (env pre.length) p).trace) = _
    rw [created_append, hc, List.append_nil]

theorem mainLoop_fatal_short_circuit_witness :
    (mainLoop sampleConfig turningEnv 0
      (["/img/a.jpg"] ++ "/img/d.jpg" :: ["/img/e.jpg", "/img/f.jpg"])).fatal = true ∧
    opened (mainLoop sampleConfig turningEnv 0
      (["/img/a.jpg"] ++ "/img/d.jpg" :: ["/img/e.jpg", "/img/f.jpg"])).trace =
        opened (mainLoop sampleConfig turningEnv 0 ["/img/a.jpg"]).trace ++ ["/img/d.jpg"] ∧
    created (mainLoop sampleConfig turningEnv 0
      (["/img/a.jpg"] ++ "/img/d.jpg" :: ["/img/e.jpg", "/img/f.jpg"])).trace =
        created (mainLoop sampleConfig turningEnv 0 ["/img/a.jpg"]).trace :=
  ⟨(mainLoop_fatal_short_circuit sampleConfig turningEnv ["/img/a.jpg"] "/img/d.jpg"
      ["/img/e.jpg", "/img/f.jpg"] (by decide) (by decide)
      (Or.inr ⟨rfl, by decide, by decide⟩)).1,
    (mainLoop_fatal_short_circuit sampleConfig turningEnv ["/img/a.jpg"] "/img/d.jpg"
      ["/img/e.jpg", "/img/f.jpg"] (by decide) (by decide)
      (Or.inr ⟨rfl, by decide, by decide⟩)).2.2.2.2.1,
    (mainLoop_fatal_short_circuit sampleConfig turningEnv ["/img/a.jpg"] "/img/d.jpg"
      ["/img/e.jpg", "/img/f.jpg"] (by decide) (by decide)
      (Or.inr ⟨rfl, by decide, by decide⟩)).2.2.2.2.2⟩

/-! ## The filter and the extension of a path (C7) -/

theorem toNat_ofNat_small (n : Nat) (h : n < 55296) : (Char.ofNat n).toNat = n := by
  unfold Char.ofNat
  have hv : n.isValidChar := Or.inl h
  simp only [hv, dif_pos, Char.ofNatAux]
  rfl

theorem toLowerRune_eq_dot (c : Char) (h : toLowerRune c = '.') : c = '.' := by
  unfold toLowerRune at h
  split at h
  · rename_i hc
    exfalso
    have h1 : (Char.ofNat (c.toNat + 32)).toNat = c.toNat + 32 :=
      toNat_ofNat_small _ (by omega)
    rw [h] at h1
    have h2 : ('.' : Char).toNat = 46 := by decide
    omega
  · exact h

theorem toLowerRune_idem (c : Char) : toLowerRune (toLowerRune c) = toLowerRune c := by
  by_cases hc : 65 ≤ c.toNat ∧ c.toNat ≤ 90
  · have h1 : toLowerRune c = Char.ofNat (c.toNat + 32) := by simp [toLowerRune, hc]
    have h2 : (Char.ofNat (c.toNat + 32)).toNat = c.toNat + 32 :=
      toNat_ofNat_small _ (by omega)
    rw [h1]
    unfold toLowerRune
    rw [h2]
    have : ¬ (65 ≤ c.toNat + 32 ∧ c.toNat + 32 ≤ 90) := by omega
    rw [if_neg this]
  · have h1 : toLowerRune c = c := by simp [toLowerRune, hc]
    rw [h1, h1]

theorem finalElement_suffix (p : String) : ∃ t : List Char, p.data = t ++ (finalElement p).data := by
  have h : (p.data.reverse.takeWhile (fun c => c != '/')).reverse <:+ p.data.reverse.reverse :=
    List.reverse_suffix.mpr (List.takeWhile_prefix _)
  rw [List.reverse_reverse] at h
  obtain ⟨t, ht⟩ := h
  exact ⟨t, ht.symm⟩

theorem lastDot_suffix (e : List Char) (h : '.' ∈ e) :
    ∃ t : List Char, e = t ++ '.' :: (e.reverse.takeWhile (fun c => c != '.')).reverse := by
  have hsplit := List.takeWhile_append_dropWhile (fun c => c != '.') e.reverse
  cases hd : e.reverse.dropWhile (fun c => c != '.') with
  | nil =>
    exfalso
    have hall := List.dropWhile_eq_nil_iff.mp hd '.' (by simpa using h)
    simp at hall
  | cons a r =>
    have ha : (fun c => c != '.') a = false := by
      have := List.head_dropWhile_not (fun c => c != '.') e.reverse (by rw [hd]; simp)
      simpa [hd] using this
    have ha2 : a = '.' := by simpa using ha
    subst ha2
    rw [hd] at hsplit
    refine ⟨r.reverse, ?_⟩
    have := congrArg List.reverse hsplit
    simp only [List.reverse_append, List.reverse_cons, List.reverse_reverse] at this
    exact this.symm.trans (by simp)

theorem extension_suffix (p : String) : ∃ t : String, p = t ++ extension p := by
  obtain ⟨t, ht⟩ := finalElement_suffix p
  unfold extension
  split
  · rename_i h
    obtain ⟨u, hu⟩ := lastDot_suffix _ h
    refine ⟨⟨t ++ u⟩, String.ext ?_⟩
    rw [String.data_append]
    show p.data = (t ++ u) ++ _
    rw [List.append_assoc, ← hu, ← ht]
  · exact ⟨p, String.ext (by simp [String.data_append])⟩

theorem extension_of_tail (p : String) (t r : List Char) (hp : p.data = t ++ '.' :: r)
    (hdot : '.' ∉ r) (hsep : '/' ∉ r) : (extension p).data = '.' :: r := by
  have hrev : p.data.reverse = r.reverse ++ '.' :: t.reverse := by
    rw [hp]; simp
  have h1 : ∀ a ∈ r.reverse, (fun c => c != '/') a = true := by
    intro a ha
    have : a ∈ r := List.mem_reverse.mp ha
    simp only [bne_iff_ne, ne_eq]
    rintro rfl
    exact hsep this
  have h2 : ∀ a ∈ r.reverse, (fun c => c != '.') a = true := by
    intro a ha
    have : a ∈ r := List.mem_reverse.mp ha
    simp only [bne_iff_ne, ne_eq]
    rintro rfl
    exact hdot this
  have hfe : (finalElement p).data =
      (t.reverse.takeWhile (fun c => c != '/')).reverse ++ '.' :: r := by
    unfold finalElement
    show (p.data.reverse.takeWhile (fun c => c != '/')).reverse = _
    rw [hrev, List.takeWhile_append_of_pos h1,
      List.takeWhile_cons (fun c => c != '/') '.' t.reverse]
    simp
  unfold extension
  rw [hfe]
  have hmem : '.' ∈ (t.reverse.takeWhile (fun c => c != '/')).reverse ++ '.' :: r := by simp
  rw [if_pos hmem]
  show '.' :: (((t.reverse.takeWhile (fun c => c != '/')).reverse ++ '.' :: r).reverse.takeWhile
    (fun c => c != '.')).reverse = '.' :: r
  have hrev2 : ((t.reverse.takeWhile (fun c => c != '/')).reverse ++ '.' :: r).reverse =
      r.reverse ++ '.' :: (t.reverse.takeWhile (fun c => c != '/')) := by simp
  rw [hrev2, List.takeWhile_append_of_pos h2,
    List.takeWhile_cons (fun c => c != '.') '.' _]
  simp

theorem ToLower_append (a b : String) : ToLower (a ++ b) = ToLower a ++ ToLower b := by
  apply String.ext
  simp [ToLower, String.data_append]

theorem extension_of_lower_suffix (p t : String) (x : List Char)
    (hx : ∀ c, toLowerRune c ∈ x → c ≠ '.' ∧ c ≠ '/')
    (h : ToLower p = t ++ ⟨'.' :: x⟩) : ToLower (extension p) = ⟨'.' :: x⟩ := by
  have hd : p.data.map toLowerRune = t.data ++ '.' :: x := by
    have := congrArg String.data h
    simpa [ToLower, String.data_append] using this
  obtain ⟨l1, l2, hl, _, h2⟩ := List.map_eq_append_iff.mp hd
  obtain ⟨a, r, hr, ha, hrx⟩ := List.map_eq_cons_iff.mp h2
  have ha2 : a = '.' := toLowerRune_eq_dot a ha
  subst ha2
  subst hr
  have hdot : '.' ∉ r := fun hm =>
    (hx '.' (by rw [← hrx]; exact List.mem_map_of_mem _ hm)).1 rfl
  have hsep : '/' ∉ r := fun hm =>
    (hx '/' (by rw [← hrx]; exact List.mem_map_of_mem _ hm)).2 rfl
  have := extension_of_tail p l1 r hl hdot hsep
  apply String.ext
  show (extension p).data.map toLowerRune = '.' :: x
  rw [this, List.map_cons, hrx, ha]

theorem map_toLowerRune_eq (a b : List Char)
    (h : List.Forall₂ (fun x y => toLowerRune x = toLowerRune y) a b) :
    a.map toLowerRune = b.map toLowerRune := by
  induction h with
  | nil => rfl
  | cons hab _ ih => simp [hab, ih]

theorem ToLower_eq_of_sameUpToCase (p q : String) (h : sameUpToCase p q) :
    ToLower p = ToLower q :=
  String.ext (map_toLowerRune_eq p.data q.data h)

theorem ToLower_idem (p : String) : ToLower (ToLower p) = ToLower p := by
  apply String.ext
  show (p.data.map toLowerRune).map toLowerRune = p.data.map toLowerRune
  rw [List.map_map]
  apply List.map_congr_left
  intro a _
  exact toLowerRune_idem a

theorem acceptExtension_congr (p q : String) (h : ToLower p = ToLower q) :
    acceptExtension p = acceptExtension q := by
  unfold acceptExtension
  rw [h]

theorem acceptExtension_iff_extension (p : String) :
    acceptExtension p = true ↔
      (ToLower (extension p) = ".jpg" ∨ ToLower (extension p) = ".jpeg") := by
  rw [acceptExtension_iff]
  constructor
  · rintro (⟨t, ht⟩ | ⟨t, ht⟩)
    · right
      have := extension_of_lower_suffix p t ['j', 'p', 'e', 'g']
        (fun c hc => ⟨by rintro rfl; revert hc; decide, by rintro rfl; revert hc; decide⟩) ht
      exact this
    · left
      have := extension_of_lower_suffix p t ['j', 'p', 'g']
        (fun c hc => ⟨by rintro rfl; revert hc; decide, by rintro rfl; revert hc; decide⟩) ht
      exact this
  · obtain ⟨t, ht⟩ := extension_suffix p
    rintro (h | h)
    · right
      refine ⟨ToLower t, ?_⟩
      conv_lhs => rw [ht]
      rw [ToLower_append, h]
    · left
      refine ⟨ToLower t, ?_⟩
      conv_lhs => rw [ht]
      rw [ToLower_append, h]

/-- C7: `acceptExtension p` holds exactly when the extension of `p` (from the last `.`
of the final path element, empty when there is none), compared without regard to case,
is `.jpg` or `.jpeg`; and the answer is the same for any `q` that differs from `p` only
in the case of its letters, in particular for the lowercased `p`. -/
theorem acceptExtension_refines (p : String) :
    (acceptExtension p = true ↔
      (equalFold (extension p) ".jpg" = true ∨ equalFold (extension p) ".jpeg" = true)) ∧
    acceptExtension p = extensionAllowed p ∧
    (∀ q : String, sameUpToCase p q → acceptExtension q = acceptExtension p) ∧
    acceptExtension (ToLower p) = acceptExtension p := by
  have h1 : acceptExtension p = true ↔
      (equalFold (extension p) ".jpg" = true ∨ equalFold (extension p) ".jpeg" = true) := by
    rw [acceptExtension_iff_extension]
    have e1 : ToLower ".jpg" = ".jpg" := by decide
    have e2 : ToLower ".jpeg" = ".jpeg" := by decide
    simp only [equalFold, beq_iff_eq, e1, e2]
  refine ⟨h1, ?_, fun q hq => ?_, ?_⟩
  · rw [Bool.eq_iff_iff, h1]
    simp [extensionAllowed]
  · exact (acceptExtension_congr p q (ToLower_eq_of_sameUpToCase p q hq)).symm
  · exact acceptExtension_congr _ _ (ToLower_idem p)

theorem acceptExtension_refines_witness :
    acceptExtension "/img.d/a.JpG" = acceptExtension "/img.d/A.jPg" :=
  (acceptExtension_refines "/img.d/A.jPg").2.2.1 "/img.d/a.JpG"
    (by unfold sameUpToCase; decide)

/-! ## Destinations of equally named files (C8) -/

theorem destPath_injective (pfx s1 s2 : String) (h : destPath pfx s1 = destPath pfx s2) :
    s1 = s2 := by
  have := congrArg String.data h
  simp only [destPath, String.data_append] at this
  exact String.ext (List.append_cancel_left this)

/-- C8, as stated, fails: two sources with the same final element in different
directories get different destinations. -/
theorem naming_collision_counterexample :
    dirPart "a/x.jpg" ≠ dirPart "b/x.jpg" ∧
    finalElement "a/x.jpg" = finalElement "b/x.jpg" ∧
    created (run sampleConfig sampleWorld "a/x.jpg").trace = ["out_a/x.jpg"] ∧
    created (run sampleConfig sampleWorld "b/x.jpg").trace = ["out_b/x.jpg"] ∧
    destPath "out" "a/x.jpg" ≠ destPath "out" "b/x.jpg" := by
  decide

/-- C8, amended: two sources in different directories with the same final element never
get the same destination, since `prefix ++ "_" ++ path` keeps the whole path: the
destinations of two sources are equal only when the sources are, and whatever `run`
creates for the one differs from whatever it creates for the other. -/
theorem naming_no_collision (pfx s1 s2 : String) (hdir : dirPart s1 ≠ dirPart s2)
    (_hbase : finalElement s1 = finalElement s2) :
    destPath pfx s1 ≠ destPath pfx s2 ∧
    (∀ a b : String, destPath pfx a = destPath pfx b ↔ a = b) ∧
    (∀ (cfg : Config) (w1 w2 : World) (d1 d2 : String) (ok1 ok2 : Bool), cfg.pfx = pfx →
      Event.osCreate d1 ok1 ∈ (run cfg w1 s1).trace →
      Event.osCreate d2 ok2 ∈ (run cfg w2 s2).trace → d1 ≠ d2) := by
  have hne : destPath pfx s1 ≠ destPath pfx s2 := fun h =>
    hdir (by rw [destPath_injective pfx s1 s2 h])
  refine ⟨hne, fun a b => ⟨destPath_injective pfx a b, fun h => by rw [h]⟩, ?_⟩
  intro cfg w1 w2 d1 d2 ok1 ok2 hp h1 h2
  rw [created_run_subset cfg w1 s1 d1 ok1 h1, created_run_subset cfg w2 s2 d2 ok2 h2, hp]
  exact hne

theorem naming_no_collision_witness :
    destPath "out" "a/x.jpg" ≠ destPath "out" "b/x.jpg" :=
  (naming_no_collision "out" "a/x.jpg" "b/x.jpg" (by decide) (by decide)).1

/-! ## File handles (C10) -/

/-- C10 at a file that opens and does not decode: `run` returns without a fatal error
and the source handle is still open, while on a file that decodes both handles are
closed on return. -/
theorem run_decode_failure_leaves_source_open :
    (run sampleConfig sampleWorld "/img/c.jpeg").fatal = false ∧
    (run sampleConfig sampleWorld "/img/c.jpeg").trace =
      [Event.stdout "Resizing /img/c.jpeg ", Event.osOpen "/img/c.jpeg" true,
        Event.jpegDecode "/img/c.jpeg" false,
        Event.logPrintln "Error decoding file." "invalid JPEG format"] ∧
    openHandles (run sampleConfig sampleWorld "/img/c.jpeg").trace =
      [Handle.src "/img/c.jpeg"] ∧
    (run sampleConfig sampleWorld "/img/a.jpg").fatal = false ∧
    openHandles (run sampleConfig sampleWorld "/img/a.jpg").trace = [] := by
  decide

theorem run_success_closes (cfg : Config) (w : World) (p : String)
    (h : accepted cfg p = true) (ho : w.osOpen p = none) (hd : (w.jpegDecode p).2 = none)
    (hc : w.osCreate (destPath cfg.pfx p) = none) :
    openHandles (run cfg w p).trace = [] := by
  simp [run_success cfg w p h ho hd hc, openHandles, stepHandles]

theorem run_decodeFail_leak (cfg : Config) (w : World) (p : String) (e : Error)
    (h : accepted cfg p = true) (ho : w.osOpen p = none) (hd : (w.jpegDecode p).2 = some e) :
    (run cfg w p).fatal = false ∧ openHandles (run cfg w p).trace = [Handle.src p] := by
  rw [run_decodeFail cfg w p e h ho hd]
  cases hs : w.notSilentVar <;> simp [openHandles, stepHandles]

/-! ## Traversal errors (C5) -/

mutual
theorem walk_collect (join : String → String → String) (s : List String) (path : String) :
    ∀ t : Tree, (walk join collect s path t).2 = none
  | .noStat _ => rfl
  | .file => rfl
  | .dir readErr children => by
    unfold walk
    cases readErr with
    | some e => simp [collect]
    | none =>
      simp only [collect, Option.isSome_none, Bool.or_self, Bool.false_eq_true, if_false]
      exact walkNames_collect join _ path children
theorem walkNames_collect (join : String → String → String) (s : List String)
    (path : String) : ∀ f : Forest, (walkNames join collect s path f).2 = none
  | .nil => rfl
  | .cons name t rest => by
    unfold walkNames
    have h := walk_collect join s (join path name) t
    simp only [h]
    exact walkNames_collect join _ path rest
end

/-- Whatever the traversal meets, `listFiles` on a directory returns a list and no
error. -/
theorem listFiles_dir_ok (fs : FS) (root : String) (m : Mode) (hs : fs.stat root = .ok m)
    (hm : m.isDir = true) : ∃ files, (listFiles fs root).1 = .ok files := by
  have hw : (Walk fs root collect []).2 = none := by
    unfold Walk
    simp [walk_collect fs.join [] root (fs.walkTree root)]
  refine ⟨(Walk fs root collect []).1, ?_⟩
  simp [listFiles, isDir, hs, hm, hw]

/-- C5 at a directory with an unreadable subdirectory: the traversal error reaches the
callback, `listFiles` still returns the list (the unreadable entry included) and no
error, and `main` goes on to process the files. -/
theorem listFiles_swallows_walk_error :
    (isDir lockedFS "/img").1 = (true, none) ∧
    (walk lockedFS.join
      (fun (s : List (String × Option Error)) path _ err => (s ++ [(path, err)], none)) []
      "/img" (lockedFS.walkTree "/img")).1 =
        [("/img", none), ("/img/a.jpg", none), ("/img/locked", some "permission denied"),
          ("/img/z.jpg", none)] ∧
    (listFiles lockedFS "/img").1 =
      .ok ["/img", "/img/a.jpg", "/img/locked", "/img/z.jpg"] ∧
    (main sampleConfig lockedFS (fun _ => sampleWorld) "/img").fatal = false ∧
    created (main sampleConfig lockedFS (fun _ => sampleWorld) "/img").trace =
      ["out_/img/a.jpg", "out_/img/z.jpg"] :=
  ⟨by decide, by decide, rfl, by decide, by decide⟩

end Neon
